import Mathlib

set_option autoImplicit false

/-!
Verification development for the `pkg/version` subsystem of the
vzahanych/gochoreo repository: a shallow embedding in Lean 4 of the
version data model (`types.go`), the HTTP version detector
(`detector.go`), the component manager (`manager.go`), the migrator
(`migration.go`), the error taxonomy (`errors.go`) and the in-memory
metrics collector (`metrics.go`), together with theorems settling the
frozen claims about that code.

Go maps are embedded as association lists with unique keys (lookup finds
the first matching key, insertion overwrites in place, deletion filters);
Go machine integers are embedded as unbounded `Int` (no claim exercises
overflow); Go `interface{}` values are embedded as a small closed value
type covering the shapes the claims touch; wall-clock timestamps are
threaded as opaque strings.
-/

namespace Gochoreo

/-! ## Embedding of the Go `strings`/`strconv` helpers, over `List Char` -/

/-- Go `strings.SplitN(s, string(c), 2)` core: the characters before the
first occurrence of `c`, and — when `c` occurs — the characters after it. -/
def splitFirst (c : Char) : List Char → List Char × Option (List Char)
  | [] => ([], none)
  | x :: xs =>
    if x = c then ([], some xs)
    else
      let p := splitFirst c xs
      (x :: p.1, p.2)

/-- Go `strings.SplitN(s, string(c), 2)`: one or two pieces. -/
def splitN2Char (c : Char) (l : List Char) : List (List Char) :=
  match splitFirst c l with
  | (p, none) => [p]
  | (p, some r) => [p, r]

/-- Go `strings.Split(s, string(c))` for a one-character separator. -/
def splitOnChar (c : Char) : List Char → List (List Char)
  | [] => [[]]
  | x :: xs =>
    if x = c then [] :: splitOnChar c xs
    else
      match splitOnChar c xs with
      | [] => [[x]]
      | y :: ys => (x :: y) :: ys

/-- Go `strings.Contains(s, sep)`: leftmost scan for `sep` as a contiguous
run; true for an empty `sep`, as in Go. -/
def containsSeq (sep : List Char) : List Char → Bool
  | [] => sep.isEmpty
  | x :: xs => sep.isPrefixOf (x :: xs) || containsSeq sep xs

/-- Go `strings.Split(s, sep)` for a non-empty separator, with explicit
fuel so that the kernel can evaluate it (each step consumes at least one
character, so `length + 1` fuel always suffices). -/
def splitSeqFuel (sep : List Char) : Nat → List Char → List (List Char)
  | 0, l => [l]
  | _ + 1, [] => [[]]
  | n + 1, x :: xs =>
    if sep ≠ [] ∧ sep.isPrefixOf (x :: xs) then
      [] :: splitSeqFuel sep n (List.drop (sep.length - 1) xs)
    else
      match splitSeqFuel sep n xs with
      | [] => [[x]]
      | y :: ys => (x :: y) :: ys

/-- Go `strings.Split` on strings (non-empty separator). -/
def splitStr (s sep : String) : List String :=
  (splitSeqFuel sep.data (s.data.length + 1) s.data).map (fun l => ⟨l⟩)

/-- Go `strings.Split` on strings for a one-character separator. -/
def splitChar (s : String) (c : Char) : List String :=
  (splitOnChar c s.data).map (fun l => ⟨l⟩)

/-- Go `strings.TrimPrefix(s, p)`: drops one leading copy of `p`. -/
def trimPrefixGo (s p : String) : String :=
  if p.data.isPrefixOf s.data then ⟨s.data.drop p.data.length⟩ else s

/-- Go `strings.HasPrefix(s, p)`. -/
def hasPrefixGo (s p : String) : Bool :=
  p.data.isPrefixOf s.data

/-- Go `strings.ToLower` (the inputs the code compares are ASCII). -/
def toLowerGo (s : String) : String :=
  ⟨s.data.map Char.toLower⟩

/-- Decimal digit value of a character, if it is one. -/
def digitVal (c : Char) : Option Nat :=
  if '0' ≤ c ∧ c ≤ '9' then some (c.toNat - '0'.toNat) else none

/-- Accumulating decimal parser over the remaining characters. -/
def parseNatAux : List Char → Nat → Option Nat
  | [], acc => some acc
  | c :: cs, acc =>
    match digitVal c with
    | some d => parseNatAux cs (acc * 10 + d)
    | none => none

/-- Go `strconv.Atoi` over characters: optional sign, then decimal digits
only; the empty string and stray characters fail. Go's int64 range check
is not modelled (the embedding's integers are unbounded). -/
def atoiL : List Char → Option Int
  | [] => none
  | '-' :: cs =>
    if cs = [] then none else (parseNatAux cs 0).map (fun n => -(n : Int))
  | '+' :: cs =>
    if cs = [] then none else (parseNatAux cs 0).map (fun n => (n : Int))
  | cs => (parseNatAux cs 0).map (fun n => (n : Int))

/-- Go `strconv.Atoi`. -/
def atoi (s : String) : Option Int :=
  atoiL s.data

/-- Go `strings.Join(parts, " ")`, as `fmt.Sprintf("%v", slice)` renders a
slice's elements. -/
def joinSpace : List String → String
  | [] => ""
  | [x] => x
  | x :: y :: ys => x ++ " " ++ joinSpace (y :: ys)

/-! ## `types.go`: the `Version` value and `ParseVersion` -/

/-- The `Version` struct of `types.go`: full string, numeric fields and
pre-release label. -/
structure Version where
  version : String
  major : Int
  minor : Int
  patch : Int
  label : String
  deriving DecidableEq

/-- The Go zero value `Version{}`. -/
def zeroVersion : Version :=
  { version := "", major := 0, minor := 0, patch := 0, label := "" }

/-- Method `Version.String`: the stored full string when present, else
`v<major>.<minor>.<patch>` with an optional `-label`. -/
def Version.str (v : Version) : String :=
  if v.version ≠ "" then v.version
  else
    let base := "v" ++ toString v.major ++ "." ++ toString v.minor ++ "." ++ toString v.patch
    if v.label ≠ "" then base ++ "-" ++ v.label else base

/-- Method `Version.IsZero`. -/
def Version.isZero (v : Version) : Bool :=
  decide (v.version = "" ∧ v.major = 0 ∧ v.minor = 0 ∧ v.patch = 0)

/-- Method `Version.Compare`: lexicographic on (major, minor, patch),
returning -1, 0 or 1. -/
def Version.compare (v other : Version) : Int :=
  if v.major ≠ other.major then (if v.major < other.major then -1 else 1)
  else if v.minor ≠ other.minor then (if v.minor < other.minor then -1 else 1)
  else if v.patch ≠ other.patch then (if v.patch < other.patch then -1 else 1)
  else 0

/-- `NewVersion(major, minor, patch)`. -/
def NewVersion (major minor patch : Int) : Version :=
  { version := "v" ++ toString major ++ "." ++ toString minor ++ "." ++ toString patch,
    major := major, minor := minor, patch := patch, label := "" }

/-- `DefaultVersion()`: v1.0.0. -/
def DefaultVersion : Version :=
  { version := "v1.0.0", major := 1, minor := 0, patch := 0, label := "" }

/-- `ParseVersion` of `types.go`, step for step: empty input gives the
zero version; `latest`/`current` (case-insensitively) are opaque; else
strip one leading `v`, split off a label at the first `-` (the source
checks `strings.Contains` and then calls `strings.SplitN(_, "-", 2)`),
split the remainder on `.`, and parse up to three integers, the first of
which must parse (else the whole input is kept opaque) while a missing or
malformed minor/patch defaults to 0. The `len(parts) > 0` guard of the
source is always true (`Split` never returns an empty slice), so the
embedding reads the head directly. -/
def ParseVersion (version : String) : Version :=
  if version = "" then zeroVersion
  else if toLowerGo version = "latest" ∨ toLowerGo version = "current" then
    { version := version, major := 0, minor := 0, patch := 0, label := "" }
  else
    let cleanVersion := (trimPrefixGo version "v").data
    let step :=
      if containsSeq ['-'] cleanVersion then
        let parts := splitN2Char '-' cleanVersion
        (parts.headD [], parts.getD 1 [])
      else (cleanVersion, [])
    let parts := splitOnChar '.' step.1
    match atoiL (parts.headD []) with
    | none => { version := version, major := 0, minor := 0, patch := 0, label := "" }
    | some major =>
      let minor := if 1 < parts.length then (atoiL (parts.getD 1 [])).getD 0 else 0
      let patch := if 2 < parts.length then (atoiL (parts.getD 2 [])).getD 0 else 0
      { version := version, major := major, minor := minor, patch := patch,
        label := ⟨step.2⟩ }

example : ParseVersion "v1.2.3" =
    { version := "v1.2.3", major := 1, minor := 2, patch := 3, label := "" } := by decide

example : ParseVersion "v1.0.0-beta" =
    { version := "v1.0.0-beta", major := 1, minor := 0, patch := 0, label := "beta" } := by
  decide

example : ParseVersion "latest" =
    { version := "latest", major := 0, minor := 0, patch := 0, label := "" } := by decide

example : ParseVersion "abc" =
    { version := "abc", major := 0, minor := 0, patch := 0, label := "" } := by decide

example : (ParseVersion "v1.2.3").str = "v1.2.3" := by decide

/-! ## Go maps as association lists with unique keys -/

/-- Go map read `m[k]`: the first binding of `k`. -/
def mapLookup {α : Type} (m : List (String × α)) (k : String) : Option α :=
  match m with
  | [] => none
  | (k2, v) :: rest => if k2 = k then some v else mapLookup rest k

/-- Go map write `m[k] = v`: overwrite in place, else append. -/
def mapInsert {α : Type} (m : List (String × α)) (k : String) (v : α) :
    List (String × α) :=
  match m with
  | [] => [(k, v)]
  | (k2, v2) :: rest =>
    if k2 = k then (k2, v) :: rest else (k2, v2) :: mapInsert rest k v

/-- Go `delete(m, k)` (keys are unique, so dropping every binding of `k`
is the same as dropping the one binding). -/
def mapErase {α : Type} (m : List (String × α)) (k : String) : List (String × α) :=
  match m with
  | [] => []
  | (k2, v) :: rest => if k2 = k then mapErase rest k else (k2, v) :: mapErase rest k

/-- Mutation of the value stored under `k`, when present (Go mutates
through the stored pointer). -/
def mapUpdate {α : Type} (m : List (String × α)) (k : String) (f : α → α) :
    List (String × α) :=
  match m with
  | [] => []
  | (k2, v) :: rest => (if k2 = k then (k2, f v) else (k2, v)) :: mapUpdate rest k f

/-! ## `detector.go`: version detection from HTTP requests -/

/-- The `DetectionMethod` enumeration. -/
inductive DetectionMethod where
  | acceptHeader
  | apiVersionHeader
  | xApiVersionHeader
  | queryParameter
  | urlPath
  | contextValue
  | defaultMethod
  deriving DecidableEq

/-- Method `DetectionMethod.String`. -/
def DetectionMethod.str : DetectionMethod → String
  | .acceptHeader => "Accept Header"
  | .apiVersionHeader => "API-Version Header"
  | .xApiVersionHeader => "X-API-Version Header"
  | .queryParameter => "Query Parameter"
  | .urlPath => "URL Path"
  | .contextValue => "Context Value"
  | .defaultMethod => "Default"

/-- The `DetectionResult` struct. -/
structure DetectionResult where
  version : Version
  method : DetectionMethod
  source : String
  deriving DecidableEq

/-- A value stored under the context key: Go's `ctx.Value` is dynamically
typed and the detector probes for a `Version` and then a `string`. -/
inductive CtxVal where
  | ver (v : Version)
  | str (s : String)
  deriving DecidableEq

/-- The parts of an `*http.Request` the detector reads: the three headers
it names, the query values, the URL path and the request context. A
missing header or query parameter reads as `""`, as Go's `Header.Get` and
`url.Values.Get` return. -/
structure Request where
  accept : String
  apiVersionHeader : String
  xApiVersionHeader : String
  query : List (String × String)
  path : String
  ctx : List (String × CtxVal)

/-- Query lookup, `r.URL.Query().Get(name)`. -/
def Request.queryGet (r : Request) (name : String) : String :=
  (mapLookup r.query name).getD ""

/-- The `Detector` configuration struct. -/
structure Detector where
  defaultVersion : Version
  enabledMethods : List DetectionMethod
  acceptHeaderPrefix : String
  queryParamName : String
  contextKey : String

/-- `NewDetector()` with no options: the default configuration. -/
def NewDetector : Detector :=
  { defaultVersion := DefaultVersion,
    acceptHeaderPrefix := "application/vnd.api.v",
    queryParamName := "version",
    contextKey := "api_version",
    enabledMethods :=
      [.acceptHeader, .apiVersionHeader, .xApiVersionHeader,
       .queryParameter, .urlPath, .contextValue, .defaultMethod] }

/-- `detectFromAcceptHeader`: find the configured vendor prefix inside the
Accept header, take the run up to the next `+`, and parse `"v" + run`. -/
def detectFromAcceptHeader (d : Detector) (r : Request) : Version × String :=
  let accept := r.accept
  if accept = "" then (zeroVersion, "")
  else if containsSeq d.acceptHeaderPrefix.data accept.data then
    let parts := splitStr accept d.acceptHeaderPrefix
    if 1 < parts.length then
      let versionPart := (splitStr (parts.getD 1 "") "+").headD ""
      let version := ParseVersion ("v" ++ versionPart)
      if ¬ version.isZero then (version, accept) else (zeroVersion, "")
    else (zeroVersion, "")
  else (zeroVersion, "")

/-- `detectFromAPIVersionHeader`. -/
def detectFromAPIVersionHeader (r : Request) : Version × String :=
  let versionStr := r.apiVersionHeader
  if versionStr = "" then (zeroVersion, "")
  else
    let version := ParseVersion versionStr
    if ¬ version.isZero then (version, versionStr) else (zeroVersion, "")

/-- `detectFromXAPIVersionHeader`. -/
def detectFromXAPIVersionHeader (r : Request) : Version × String :=
  let versionStr := r.xApiVersionHeader
  if versionStr = "" then (zeroVersion, "")
  else
    let version := ParseVersion versionStr
    if ¬ version.isZero then (version, versionStr) else (zeroVersion, "")

/-- `detectFromQueryParameter`. -/
def detectFromQueryParameter (d : Detector) (r : Request) : Version × String :=
  let versionStr := r.queryGet d.queryParamName
  if versionStr = "" then (zeroVersion, "")
  else
    let version := ParseVersion versionStr
    if ¬ version.isZero then (version, versionStr) else (zeroVersion, "")

/-- `detectFromURLPath`: the first path segment, when it starts with `v`. -/
def detectFromURLPath (r : Request) : Version × String :=
  let path := trimPrefixGo r.path "/"
  if path = "" then (zeroVersion, "")
  else
    let parts := splitStr path "/"
    if 0 < parts.length ∧ hasPrefixGo (parts.headD "") "v" then
      let version := ParseVersion (parts.headD "")
      if ¬ version.isZero then (version, parts.headD "") else (zeroVersion, "")
    else (zeroVersion, "")

/-- `detectFromContext`: a stored `Version` value is returned as-is with
the context key as source; a stored non-empty string is re-parsed. -/
def detectFromContextGo (d : Detector) (ctx : List (String × CtxVal)) :
    Version × String :=
  match mapLookup ctx d.contextKey with
  | some (CtxVal.ver v) => (v, d.contextKey)
  | some (CtxVal.str s) =>
    if s ≠ "" then
      let version := ParseVersion s
      if ¬ version.isZero then (version, s) else (zeroVersion, "")
    else (zeroVersion, "")
  | none => (zeroVersion, "")

/-- The loop body of `DetectFromHTTPRequest`, with the remaining enabled
methods explicit: each case probes its method and returns the tagged
result when the probe is non-zero, and the Go `switch` has no case for
`DetectionMethodDefault`, so that method falls through. -/
def detectLoop (d : Detector) (r : Request) : List DetectionMethod → DetectionResult
  | [] =>
    { version := d.defaultVersion, method := .defaultMethod, source := "default_version" }
  | m :: rest =>
    match m with
    | .acceptHeader =>
      let p := detectFromAcceptHeader d r
      if ¬ p.1.isZero then { version := p.1, method := m, source := p.2 }
      else detectLoop d r rest
    | .apiVersionHeader =>
      let p := detectFromAPIVersionHeader r
      if ¬ p.1.isZero then { version := p.1, method := m, source := p.2 }
      else detectLoop d r rest
    | .xApiVersionHeader =>
      let p := detectFromXAPIVersionHeader r
      if ¬ p.1.isZero then { version := p.1, method := m, source := p.2 }
      else detectLoop d r rest
    | .queryParameter =>
      let p := detectFromQueryParameter d r
      if ¬ p.1.isZero then { version := p.1, method := m, source := p.2 }
      else detectLoop d r rest
    | .urlPath =>
      let p := detectFromURLPath r
      if ¬ p.1.isZero then { version := p.1, method := m, source := p.2 }
      else detectLoop d r rest
    | .contextValue =>
      let p := detectFromContextGo d r.ctx
      if ¬ p.1.isZero then { version := p.1, method := m, source := p.2 }
      else detectLoop d r rest
    | .defaultMethod => detectLoop d r rest

/-- `DetectFromHTTPRequest`: run the loop over the configured method list. -/
def detectFromHTTPRequest (d : Detector) (r : Request) : DetectionResult :=
  detectLoop d r d.enabledMethods

/-- Specification-side probe of one method, as the spec's enumeration of
strategies reads: the pair a method yields on this request (`Default`
yields nothing inside the loop). -/
def methodProbe (d : Detector) (r : Request) : DetectionMethod → Version × String
  | .acceptHeader => detectFromAcceptHeader d r
  | .apiVersionHeader => detectFromAPIVersionHeader r
  | .xApiVersionHeader => detectFromXAPIVersionHeader r
  | .queryParameter => detectFromQueryParameter d r
  | .urlPath => detectFromURLPath r
  | .contextValue => detectFromContextGo d r.ctx
  | .defaultMethod => (zeroVersion, "")

/-- First-match search over a method list, from the spec's words: the
first method whose probe yields a non-zero version, tagged with that
method and its source string; else the default fallback. -/
def specFold (d : Detector) (r : Request) (ms : List DetectionMethod) : DetectionResult :=
  match ms.findSome? (fun m =>
      let p := methodProbe d r m
      if p.1.isZero then none
      else some ({ version := p.1, method := m, source := p.2 } : DetectionResult)) with
  | some res => res
  | none =>
    { version := d.defaultVersion, method := .defaultMethod, source := "default_version" }

/-- Specification-side detection, from the spec's words: evaluate the
enabled methods in configured order and return the first non-zero result. -/
def detectSpec (d : Detector) (r : Request) : DetectionResult :=
  specFold d r d.enabledMethods

theorem detectLoop_eq_specFold (d : Detector) (r : Request) (ms : List DetectionMethod) :
    detectLoop d r ms = specFold d r ms := by
  induction ms with
  | nil => rfl
  | cons m rest ih =>
    cases m <;> simp only [detectLoop, specFold, methodProbe, List.findSome?_cons] at ih ⊢
    case acceptHeader =>
      by_cases hz : (detectFromAcceptHeader d r).1.isZero <;> simp [hz, ih]
    case apiVersionHeader =>
      by_cases hz : (detectFromAPIVersionHeader r).1.isZero <;> simp [hz, ih]
    case xApiVersionHeader =>
      by_cases hz : (detectFromXAPIVersionHeader r).1.isZero <;> simp [hz, ih]
    case queryParameter =>
      by_cases hz : (detectFromQueryParameter d r).1.isZero <;> simp [hz, ih]
    case urlPath =>
      by_cases hz : (detectFromURLPath r).1.isZero <;> simp [hz, ih]
    case contextValue =>
      by_cases hz : (detectFromContextGo d r.ctx).1.isZero <;> simp [hz, ih]
    case defaultMethod =>
      simp [zeroVersion, Version.isZero, ih]

/-- The request of the spec's precedence example: both a `version=v2.1.0`
query parameter and an `Accept: application/vnd.api.v2+json` header. -/
def exampleRequest1 : Request :=
  { accept := "application/vnd.api.v2+json",
    apiVersionHeader := "",
    xApiVersionHeader := "",
    query := [("version", "v2.1.0")],
    path := "/users",
    ctx := [] }

/-- A detector with only the query-parameter method enabled. -/
def queryOnlyDetector : Detector :=
  { NewDetector with enabledMethods := [.queryParameter] }

example : detectFromHTTPRequest NewDetector exampleRequest1 =
    { version := { version := "v2", major := 2, minor := 0, patch := 0, label := "" },
      method := .acceptHeader, source := "application/vnd.api.v2+json" } := by decide

example : detectFromHTTPRequest queryOnlyDetector exampleRequest1 =
    { version := { version := "v2.1.0", major := 2, minor := 1, patch := 0, label := "" },
      method := .queryParameter, source := "v2.1.0" } := by decide

/-- C2: `DetectFromHTTPRequest` evaluates the enabled methods in
configured order and returns the first non-zero probe tagged with its
method and source string, else the default version tagged method=Default,
source="default_version"; in particular, with the default order a request
carrying both `?version=v2.1.0` and `Accept: application/vnd.api.v2+json`
resolves via the Accept header (method string "Accept Header"), and with
only the Query method enabled it resolves `v2.1.0` via Query. -/
theorem C2_detect_first_match :
    (∀ (d : Detector) (r : Request), detectFromHTTPRequest d r = detectSpec d r)
    ∧ detectFromHTTPRequest NewDetector exampleRequest1 =
        { version := { version := "v2", major := 2, minor := 0, patch := 0, label := "" },
          method := .acceptHeader, source := "application/vnd.api.v2+json" }
    ∧ (detectFromHTTPRequest NewDetector exampleRequest1).method.str = "Accept Header"
    ∧ detectFromHTTPRequest queryOnlyDetector exampleRequest1 =
        { version := { version := "v2.1.0", major := 2, minor := 1, patch := 0, label := "" },
          method := .queryParameter, source := "v2.1.0" } :=
  ⟨fun d r => detectLoop_eq_specFold d r d.enabledMethods, by decide, by decide, by decide⟩

/-! ## Specification-side descriptions of `ParseVersion` -/

/-- The pre-release split as the claim describes it, but at the FIRST `-`:
the piece before the first occurrence and, when one occurs, the rest. -/
def parseVersionFirstDash (s : String) : Version :=
  if s = "" then zeroVersion
  else if toLowerGo s = "latest" ∨ toLowerGo s = "current" then
    { version := s, major := 0, minor := 0, patch := 0, label := "" }
  else
    let body := (trimPrefixGo s "v").data
    let clean := (splitFirst '-' body).1
    let labelPart := (splitFirst '-' body).2
    let parts := splitOnChar '.' clean
    match atoiL (parts.headD []) with
    | none => { version := s, major := 0, minor := 0, patch := 0, label := "" }
    | some major =>
      { version := s, major := major,
        minor := (atoiL (parts.getD 1 [])).getD 0,
        patch := (atoiL (parts.getD 2 [])).getD 0,
        label := ⟨labelPart.getD []⟩ }

/-- A split at the LAST occurrence of `c`, as the claim's words have it. -/
def splitLast (c : Char) (l : List Char) : List Char × Option (List Char) :=
  match splitFirst c l.reverse with
  | (_, none) => (l, none)
  | (p, some r) => (r.reverse, some p.reverse)

/-- The claim's reading of `ParseVersion`: identical to
`parseVersionFirstDash` except that the label is isolated at the last `-`. -/
def parseVersionLastDash (s : String) : Version :=
  if s = "" then zeroVersion
  else if toLowerGo s = "latest" ∨ toLowerGo s = "current" then
    { version := s, major := 0, minor := 0, patch := 0, label := "" }
  else
    let body := (trimPrefixGo s "v").data
    let clean := (splitLast '-' body).1
    let labelPart := (splitLast '-' body).2
    let parts := splitOnChar '.' clean
    match atoiL (parts.headD []) with
    | none => { version := s, major := 0, minor := 0, patch := 0, label := "" }
    | some major =>
      { version := s, major := major,
        minor := (atoiL (parts.getD 1 [])).getD 0,
        patch := (atoiL (parts.getD 2 [])).getD 0,
        label := ⟨labelPart.getD []⟩ }

theorem splitFirst_none_fst (c : Char) (l : List Char) (h : (splitFirst c l).2 = none) :
    (splitFirst c l).1 = l := by
  induction l with
  | nil => rfl
  | cons x xs ih =>
    by_cases hx : x = c
    · simp [splitFirst, hx] at h
    · simp only [splitFirst, if_neg hx] at h ⊢
      exact congrArg (x :: ·) (ih h)

theorem containsSeq_singleton (c : Char) (l : List Char) :
    containsSeq [c] l = ((splitFirst c l).2).isSome := by
  induction l with
  | nil => rfl
  | cons x xs ih =>
    by_cases hx : x = c
    · subst hx
      simp [containsSeq, splitFirst, List.isPrefixOf]
    · have hcx : (c == x) = false := by
        simp [beq_iff_eq]
        exact fun h => hx h.symm
      simp [containsSeq, splitFirst, List.isPrefixOf, hx, hcx, ih]

theorem atoiL_getD_out (parts : List (List Char)) (i : Nat) (h : parts.length ≤ i) :
    (atoiL (parts.getD i [])).getD 0 = 0 := by
  rw [List.getD_eq_default _ _ h]
  rfl

theorem stringMkNil : (⟨[]⟩ : String) = "" := rfl

theorem minorEq (parts : List (List Char)) (i : Nat) :
    (if i < parts.length then (atoiL (parts.getD i [])).getD 0 else 0)
      = (atoiL (parts.getD i [])).getD 0 := by
  by_cases h : i < parts.length
  · rw [if_pos h]
  · rw [if_neg h, atoiL_getD_out parts i (by omega)]

/-- The whole post-label tail of the two parse functions agrees: the Go
`Contains` plus `SplitN` pattern computes exactly the split at the first
dash. -/
theorem parseTail_eq (v : String) (body : List Char) :
    (let step :=
       if containsSeq ['-'] body then
         let parts := splitN2Char '-' body
         (parts.headD [], parts.getD 1 [])
       else (body, []);
     let parts := splitOnChar '.' step.1
     match atoiL (parts.headD []) with
     | none => ({ version := v, major := 0, minor := 0, patch := 0, label := "" } : Version)
     | some major =>
       let minor := if 1 < parts.length then (atoiL (parts.getD 1 [])).getD 0 else 0
       let patch := if 2 < parts.length then (atoiL (parts.getD 2 [])).getD 0 else 0
       { version := v, major := major, minor := minor, patch := patch,
         label := ⟨step.2⟩ })
    = (let clean := (splitFirst '-' body).1
       let labelPart := (splitFirst '-' body).2
       let parts := splitOnChar '.' clean
       match atoiL (parts.headD []) with
       | none => ({ version := v, major := 0, minor := 0, patch := 0, label := "" } : Version)
       | some major =>
         { version := v, major := major,
           minor := (atoiL (parts.getD 1 [])).getD 0,
           patch := (atoiL (parts.getD 2 [])).getD 0,
           label := ⟨labelPart.getD []⟩ }) := by
  have hc := containsSeq_singleton '-' body
  rcases hsf : splitFirst '-' body with ⟨p, o⟩
  rw [hsf] at hc
  cases o with
  | none =>
    have hp : p = body := by
      have h2 : (splitFirst '-' body).2 = none := by rw [hsf]
      have := splitFirst_none_fst '-' body h2
      rw [hsf] at this
      exact this
    subst hp
    simp only [Option.isSome_none] at hc
    simp only [hc, Bool.false_eq_true, if_false, hsf, Option.getD_none]
    rcases hmaj : atoiL ((splitOnChar '.' p).headD []) with _ | major
    · simp only [hmaj]
    · simp only [hmaj, minorEq _ 1, minorEq _ 2, stringMkNil]
  | some r =>
    simp only [Option.isSome_some] at hc
    simp only [hc, if_true, splitN2Char, hsf, List.headD_cons, List.getD_cons_succ,
      List.getD_cons_zero, Option.getD_some]
    rcases hmaj : atoiL ((splitOnChar '.' p).headD []) with _ | major
    · simp only [hmaj]
    · simp only [hmaj, minorEq _ 1, minorEq _ 2]

theorem ParseVersion_eq_firstDash (s : String) :
    ParseVersion s = parseVersionFirstDash s := by
  unfold ParseVersion parseVersionFirstDash
  by_cases h1 : s = ""
  · simp [h1]
  by_cases h2 : toLowerGo s = "latest" ∨ toLowerGo s = "current"
  · simp [h1, h2]
  simp only [if_neg h1, if_neg h2]
  exact parseTail_eq s ((trimPrefixGo s "v").data)

/-- C3: `ParseVersion` strips one leading `v`, isolates an optional
pre-release label at a single dash (at the FIRST dash, as
`parseVersionFirstDash` spells out — the claim's "last dash" is refuted
separately), splits the remainder on `.` into up to three integers with
missing trailing parts defaulting to 0, returns an opaque version
(original string kept, numeric fields 0) whenever the first numeric
segment fails to parse, treats `latest`/`current` case-insensitively as
always opaque, and satisfies the concrete facts
`ParseVersion("v1.2.3").String() == "v1.2.3"` with Major/Minor/Patch
1/2/3 and label `beta` for `v1.0.0-beta`. -/
theorem C3_ParseVersion_spec :
    (∀ s, ParseVersion s = parseVersionFirstDash s)
    ∧ (∀ s, (toLowerGo s = "latest" ∨ toLowerGo s = "current") →
        ParseVersion s = { version := s, major := 0, minor := 0, patch := 0, label := "" })
    ∧ (ParseVersion "v1.0.0-beta").label = "beta"
    ∧ (ParseVersion "v1.2.3").str = "v1.2.3"
    ∧ (ParseVersion "v1.2.3").major = 1
    ∧ (ParseVersion "v1.2.3").minor = 2
    ∧ (ParseVersion "v1.2.3").patch = 3 := by
  refine ⟨ParseVersion_eq_firstDash, ?_, by decide, by decide, by decide, by decide, by decide⟩
  intro s hs
  have hne : s ≠ "" := by
    intro he
    subst he
    rcases hs with h | h <;> exact absurd h (by decide)
  unfold ParseVersion
  rw [if_neg hne, if_pos hs]

/-- C3 counterexample: on `v1.0.0-beta-rc` the code isolates the label at
the FIRST dash (label `beta-rc`), while the claim's split at the LAST dash
would give label `rc`; the two disagree at this input. -/
theorem C3_lastDash_counterexample :
    (ParseVersion "v1.0.0-beta-rc").label = "beta-rc"
    ∧ (parseVersionLastDash "v1.0.0-beta-rc").label = "rc"
    ∧ ParseVersion "v1.0.0-beta-rc" ≠ parseVersionLastDash "v1.0.0-beta-rc" := by
  exact ⟨by decide, by decide, by decide⟩

/-! ## `migration.go`: field mappings, migrations and the migrator -/

/-- The dynamic (`interface{}`) values the migration claims exercise:
integers, strings and booleans. -/
inductive Value where
  | vInt (n : Int)
  | vStr (s : String)
  | vBool (b : Bool)
  deriving DecidableEq

/-- Rendering by `fmt.Sprintf("%v", value)` for the embedded value shapes. -/
def sprintfV : Value → String
  | .vInt n => toString n
  | .vStr s => s
  | .vBool b => if b then "true" else "false"

/-- The `FieldMapping` struct: source field, destination field, transform
hook name, optional default, required flag. -/
structure FieldMapping where
  fromField : String
  toField : String
  transform : String
  defaultValue : Option Value
  required : Bool
  deriving DecidableEq

/-- `transformValue`: the empty hook and unrecognized hooks pass the value
through; `"string"` renders with `%v`; `"int"` is a placeholder in the
source that returns its input unchanged (for strings it returns the same
string). The Go signature also returns an error but no path produces one. -/
def transformValue (value : Value) (transform : String) : Value :=
  if transform = "" then value
  else
    match transform with
    | "string" => .vStr (sprintfV value)
    | "int" =>
      match value with
      | .vStr s => .vStr s
      | v => v
    | _ => value

/-- The `MigrationStrategy` enumeration. -/
inductive MigrationStrategy where
  | sNone
  | sAutomatic
  | sCustom
  | sFallback
  deriving DecidableEq

/-- A dynamic input/output of `Migrate`: Go `nil`, a
`map[string]interface{}`, or any other (non-struct, non-map) value, which
automatic migration passes through. Struct inputs — which the source
flattens to such a map by reflection before running the same map logic —
are not modelled separately. -/
inductive Data where
  | nullD
  | mapD (m : List (String × Value))
  | primD (v : Value)
  deriving DecidableEq

/-- The `MigrationError` struct (the wrapped cause kept as its message). -/
structure MigrationError where
  component : String
  fromVersion : Version
  toVersion : Version
  message : String
  cause : Option String
  deriving DecidableEq

/-- The `VersionMigration` struct. -/
structure VersionMigration where
  fromVersion : Version
  toVersion : Version
  strategy : MigrationStrategy
  fieldMappings : List FieldMapping
  customFunc : Option (Version → Version → Data → Except MigrationError Data)
  reversible : Bool
  description : String

/-- The `Migrator` struct: a component name and the migration table keyed
by the rendered `"from-to"` string. -/
structure Migrator where
  component : String
  migrations : List (String × VersionMigration)

/-- `NewMigrator(component)`. -/
def NewMigrator (component : String) : Migrator :=
  { component := component, migrations := [] }

/-- `migrationKey(from, to)`: `fmt.Sprintf("%s-%s", from, to)`. -/
def migrationKey (vfrom vto : Version) : String :=
  vfrom.str ++ "-" ++ vto.str

/-- `reverseTransform`: the source's TODO stub always clears the hook. -/
def reverseTransform (_transform : String) : String := ""

/-- `reverseFieldMappings`: swap from/to per mapping, clear the transform
via `reverseTransform`, drop the default, keep the required flag. -/
def reverseFieldMappings (mappings : List FieldMapping) : List FieldMapping :=
  mappings.map (fun mp =>
    { fromField := mp.toField, toField := mp.fromField,
      transform := reverseTransform mp.transform,
      defaultValue := none, required := mp.required })

/-- `AddMigration`: store under `(from, to)`; when reversible, also store
the synthesized reverse entry under `(to, from)` with `Reversible` forced
false (the Go nil-migration guard has no counterpart for a Lean value). -/
def Migrator.addMigration (m : Migrator) (migration : VersionMigration) : Migrator :=
  let key := migrationKey migration.fromVersion migration.toVersion
  let m1 : Migrator := { m with migrations := mapInsert m.migrations key migration }
  if migration.reversible then
    let reverseKey := migrationKey migration.toVersion migration.fromVersion
    let reverseMigration : VersionMigration :=
      { fromVersion := migration.toVersion,
        toVersion := migration.fromVersion,
        strategy := migration.strategy,
        fieldMappings := reverseFieldMappings migration.fieldMappings,
        customFunc := none,
        reversible := false,
        description := "Reverse migration: " ++ migration.description }
    { m1 with migrations := mapInsert m1.migrations reverseKey reverseMigration }
  else m1

/-- The first loop of `migrateMapData`: apply each field mapping in order
to build the result map, failing on a required source field that is
absent with no default. -/
def applyMappings (inputMap : List (String × Value)) :
    List FieldMapping → List (String × Value) → Except String (List (String × Value))
  | [], acc => .ok acc
  | mp :: rest, acc =>
    match mapLookup inputMap mp.fromField with
    | some value =>
      applyMappings inputMap rest (mapInsert acc mp.toField (transformValue value mp.transform))
    | none =>
      match mp.defaultValue with
      | some d => applyMappings inputMap rest (mapInsert acc mp.toField d)
      | none =>
        if mp.required then .error ("required field " ++ mp.fromField ++ " is missing")
        else applyMappings inputMap rest acc

/-- The second loop of `migrateMapData`: copy every input field that is
not the source of any mapping, unchanged, into the result map. -/
def copyUnmapped (mappings : List FieldMapping) :
    List (String × Value) → List (String × Value) → List (String × Value)
  | [], acc => acc
  | (k, v) :: rest, acc =>
    if mappings.any (fun mp => mp.fromField = k) then copyUnmapped mappings rest acc
    else copyUnmapped mappings rest (mapInsert acc k v)

/-- `migrateMapData`: field mappings first, then the copy of unmapped
fields. -/
def migrateMapData (mappings : List FieldMapping) (inputMap : List (String × Value)) :
    Except String (List (String × Value)) :=
  match applyMappings inputMap mappings [] with
  | .error e => .error e
  | .ok resultMap => .ok (copyUnmapped mappings inputMap resultMap)

/-- `performAutomaticMigration`: nil in, nil out; a plain value is
returned unchanged; a map goes through `migrateMapData`, with a failure
wrapped in a `MigrationError`. -/
def performAutomaticMigration (m : Migrator) (mig : VersionMigration) (input : Data) :
    Except MigrationError Data :=
  match input with
  | .nullD => .ok .nullD
  | .primD v => .ok (.primD v)
  | .mapD inputMap =>
    match migrateMapData mig.fieldMappings inputMap with
    | .ok r => .ok (.mapD r)
    | .error e =>
      .error { component := m.component, fromVersion := mig.fromVersion,
               toVersion := mig.toVersion, message := "automatic migration failed",
               cause := some e }

/-- `Migrate`: versions comparing equal are the identity with no table
lookup; else look up the exact pair and dispatch on the strategy
(`performFallbackMigration` delegates to the automatic path). -/
def Migrator.migrate (m : Migrator) (vfrom vto : Version) (input : Data) :
    Except MigrationError Data :=
  if vfrom.compare vto = 0 then .ok input
  else
    match mapLookup m.migrations (migrationKey vfrom vto) with
    | none =>
      .error { component := m.component, fromVersion := vfrom, toVersion := vto,
               message := "no migration path available", cause := none }
    | some migration =>
      match migration.strategy with
      | .sNone =>
        .error { component := m.component, fromVersion := vfrom, toVersion := vto,
                 message := "migration not supported", cause := none }
      | .sCustom =>
        match migration.customFunc with
        | none =>
          .error { component := m.component, fromVersion := vfrom, toVersion := vto,
                   message := "custom migration function not provided", cause := none }
        | some f => f vfrom vto input
      | .sAutomatic => performAutomaticMigration m migration input
      | .sFallback => performAutomaticMigration m migration input

/-- `CanMigrate`: true on versions comparing equal, else whether the exact
pair is in the table. -/
def Migrator.canMigrate (m : Migrator) (vfrom vto : Version) : Bool :=
  if vfrom.compare vto = 0 then true
  else (mapLookup m.migrations (migrationKey vfrom vto)).isSome

/-! ## Association-list lemmas -/

theorem mapLookup_insert {α : Type} (m : List (String × α)) (k1 k2 : String) (v : α) :
    mapLookup (mapInsert m k1 v) k2 = if k1 = k2 then some v else mapLookup m k2 := by
  induction m with
  | nil =>
    by_cases h : k1 = k2 <;> simp [mapInsert, mapLookup, h]
  | cons p rest ih =>
    obtain ⟨kp, vp⟩ := p
    by_cases h : kp = k1
    · subst h
      by_cases h2 : kp = k2 <;> simp [mapInsert, mapLookup, h2]
    · by_cases h2 : kp = k2
      · subst h2
        have hne : k1 ≠ kp := fun hh => h hh.symm
        simp [mapInsert, mapLookup, h, hne]
      · simp [mapInsert, mapLookup, h, h2, ih]

theorem mapLookup_eq_none {α : Type} (m : List (String × α)) (k : String)
    (h : k ∉ m.map Prod.fst) : mapLookup m k = none := by
  induction m with
  | nil => rfl
  | cons p rest ih =>
    obtain ⟨kp, vp⟩ := p
    simp only [List.map_cons, List.mem_cons, not_or] at h
    have hne : kp ≠ k := fun hh => h.1 hh.symm
    simp [mapLookup, hne, ih h.2]

theorem compare_self (v : Version) : v.compare v = 0 := by
  simp [Version.compare]

/-- C7: `Migrate(v, v, x)` is the identity for every migrator state, every
version and every input — the table is never consulted when the two
versions compare equal (as they do when they are the same version). -/
theorem C7_migrate_identity (m : Migrator) (v : Version) (x : Data) :
    m.migrate v v x = .ok x := by
  unfold Migrator.migrate
  rw [compare_self]
  simp

/-- C10: any two versions comparing equal on (major, minor, patch) — even
distinct values such as a pre-release against its release, or two opaque
strings — make `Migrate` the identity and `CanMigrate` true, with no
migration entry needed. -/
theorem C10_compare_zero_identity (m : Migrator) (vfrom vto : Version) (x : Data)
    (h : vfrom.compare vto = 0) :
    m.migrate vfrom vto x = .ok x ∧ m.canMigrate vfrom vto = true := by
  unfold Migrator.migrate Migrator.canMigrate
  rw [h]
  simp

/-- C10 witness: `v1.0.0-beta` and `v1.0.0` are distinct versions that
compare equal, and on an empty migration table `Migrate` is the identity
and `CanMigrate` is true between them. -/
theorem C10_witness :
    (ParseVersion "v1.0.0-beta") ≠ (ParseVersion "v1.0.0")
    ∧ ((NewMigrator "users").migrate (ParseVersion "v1.0.0-beta") (ParseVersion "v1.0.0")
          (.mapD [("id", .vInt 1)]) = .ok (.mapD [("id", .vInt 1)])
        ∧ (NewMigrator "users").canMigrate (ParseVersion "v1.0.0-beta") (ParseVersion "v1.0.0")
            = true) :=
  ⟨by decide,
   C10_compare_zero_identity (NewMigrator "users") _ _ _ (by decide)⟩

/-- Versions v1.0.0 and v2.0.0 used by the migration examples. -/
def exV1 : Version := NewVersion 1 0 0

def exV2 : Version := NewVersion 2 0 0

/-- A reversible automatic migration whose single field mapping carries a
`"string"` transform hook. -/
def exMigT : VersionMigration :=
  { fromVersion := exV1, toVersion := exV2, strategy := .sAutomatic,
    fieldMappings := [{ fromField := "a", toField := "b", transform := "string",
                        defaultValue := none, required := true }],
    customFunc := none, reversible := true, description := "d" }

/-- C6 counterexample: the synthesized reverse entry CLEARS the transform
hook (the source's `reverseTransform` stub returns `""`), so its field
mappings are not simply the original ones with from/to exchanged and
defaults dropped: the stored reverse mapping has transform `""` where the
claim's reading keeps `"string"`. -/
theorem C6_reverse_transform_counterexample :
    ((mapLookup ((NewMigrator "users").addMigration exMigT).migrations
        (migrationKey exV2 exV1)).map (fun g => g.fieldMappings))
      = some [{ fromField := "b", toField := "a", transform := "",
                defaultValue := none, required := true }]
    ∧ (some [({ fromField := "b", toField := "a", transform := "",
                defaultValue := none, required := true } : FieldMapping)]
        ≠ some [({ fromField := "b", toField := "a", transform := "string",
                   defaultValue := none, required := true } : FieldMapping)]) := by
  exact ⟨by decide, by decide⟩

/-- C6 (amended): `AddMigration` of a reversible migration stores the
migration at key (from, to) — visible whenever that key differs from the
reverse key — and also synthesizes and stores at (to, from) the reverse
entry whose mappings swap from/to, drop defaults AND clear the transform
hook, with the reversible flag forced false; afterwards
`CanMigrate(to, from)` is true. -/
theorem C6_addMigration_reversible (m : Migrator) (mig : VersionMigration)
    (hrev : mig.reversible = true) :
    mapLookup (m.addMigration mig).migrations (migrationKey mig.toVersion mig.fromVersion)
      = some { fromVersion := mig.toVersion, toVersion := mig.fromVersion,
               strategy := mig.strategy,
               fieldMappings := mig.fieldMappings.map (fun mp =>
                 { fromField := mp.toField, toField := mp.fromField, transform := "",
                   defaultValue := none, required := mp.required }),
               customFunc := none, reversible := false,
               description := "Reverse migration: " ++ mig.description }
    ∧ (migrationKey mig.fromVersion mig.toVersion ≠ migrationKey mig.toVersion mig.fromVersion →
        mapLookup (m.addMigration mig).migrations (migrationKey mig.fromVersion mig.toVersion)
          = some mig)
    ∧ (m.addMigration mig).canMigrate mig.toVersion mig.fromVersion = true := by
  unfold Migrator.addMigration
  rw [hrev]
  simp only [if_true]
  refine ⟨?_, ?_, ?_⟩
  · rw [mapLookup_insert, if_pos rfl]
    simp [reverseFieldMappings, reverseTransform]
  · intro hne
    rw [mapLookup_insert, if_neg (fun hh => hne hh.symm), mapLookup_insert, if_pos rfl]
  · unfold Migrator.canMigrate
    by_cases hc : mig.toVersion.compare mig.fromVersion = 0
    · rw [hc]
      simp
    · rw [if_neg hc, mapLookup_insert, if_pos rfl]
      rfl

/-- C6 witness: a concrete reversible migration for (v1, v2) makes
`CanMigrate(v2, v1)` true. -/
theorem C6_witness :
    ((NewMigrator "users").addMigration exMigT).canMigrate exV2 exV1 = true :=
  (C6_addMigration_reversible (NewMigrator "users") exMigT rfl).2.2

/-! ## Characterizing `migrateMapData` -/

/-- The value a single mapping writes to its destination, when it writes
one: the transformed source value when present, else the default. -/
def mappingFires (inputMap : List (String × Value)) (mp : FieldMapping) : Option Value :=
  match mapLookup inputMap mp.fromField with
  | some v => some (transformValue v mp.transform)
  | none => mp.defaultValue

/-- The value the mapping loop leaves at destination `k`: the firing of
the last mapping targeting `k` that fires (later writes overwrite). -/
def writesTo (inputMap : List (String × Value)) (k : String) :
    List FieldMapping → Option Value
  | [] => none
  | mp :: rest =>
    match writesTo inputMap k rest with
    | some v => some v
    | none => if mp.toField = k then mappingFires inputMap mp else none

theorem applyMappings_error_iff (inputMap : List (String × Value)) :
    ∀ (mappings : List FieldMapping) (acc : List (String × Value)),
      (∃ e, applyMappings inputMap mappings acc = .error e) ↔
        ∃ mp ∈ mappings,
          mapLookup inputMap mp.fromField = none
          ∧ mp.defaultValue = none ∧ mp.required = true := by
  intro mappings
  induction mappings with
  | nil =>
    intro acc
    simp [applyMappings]
  | cons mp rest ih =>
    intro acc
    rcases hl : mapLookup inputMap mp.fromField with _ | v
    · rcases hd : mp.defaultValue with _ | d
      · rcases hr : mp.required with _ | _
        · simp only [applyMappings, hl, hd, hr, Bool.false_eq_true, if_false]
          rw [ih]
          constructor
          · rintro ⟨q, hq, h⟩
            exact ⟨q, List.mem_cons_of_mem _ hq, h⟩
          · rintro ⟨q, hq, h⟩
            rcases List.mem_cons.mp hq with he | hm
            · subst he
              rw [hr] at h
              exact absurd h.2.2 (by decide)
            · exact ⟨q, hm, h⟩
        · simp only [applyMappings, hl, hd, hr, if_true]
          constructor
          · intro _
            exact ⟨mp, List.mem_cons_self _ _, hl, hd, hr⟩
          · intro _
            exact ⟨_, rfl⟩
      · simp only [applyMappings, hl, hd]
        rw [ih]
        constructor
        · rintro ⟨q, hq, h⟩
          exact ⟨q, List.mem_cons_of_mem _ hq, h⟩
        · rintro ⟨q, hq, h⟩
          rcases List.mem_cons.mp hq with he | hm
          · subst he
            rw [hd] at h
            exact absurd h.2.1 (by simp)
          · exact ⟨q, hm, h⟩
    · simp only [applyMappings, hl]
      rw [ih]
      constructor
      · rintro ⟨q, hq, h⟩
        exact ⟨q, List.mem_cons_of_mem _ hq, h⟩
      · rintro ⟨q, hq, h⟩
        rcases List.mem_cons.mp hq with he | hm
        · subst he
          rw [hl] at h
          exact absurd h.1 (by simp)
        · exact ⟨q, hm, h⟩

theorem applyMappings_ok_lookup (inputMap : List (String × Value)) :
    ∀ (mappings : List FieldMapping) (acc out : List (String × Value)),
      applyMappings inputMap mappings acc = .ok out →
      ∀ k, mapLookup out k =
        match writesTo inputMap k mappings with
        | some v => some v
        | none => mapLookup acc k := by
  intro mappings
  induction mappings with
  | nil =>
    intro acc out h k
    cases h
    simp [writesTo]
  | cons mp rest ih =>
    intro acc out h k
    rcases hl : mapLookup inputMap mp.fromField with _ | v
    · rcases hd : mp.defaultValue with _ | d
      · rcases hr : mp.required with _ | _
        · rw [applyMappings, hl, hd, hr] at h
          simp only [Bool.false_eq_true, if_false] at h
          rw [ih acc out h k, writesTo]
          have hf : mappingFires inputMap mp = none := by
            rw [mappingFires, hl, hd]
          rcases writesTo inputMap k rest with _ | w
          · rw [hf]
            simp
          · rfl
        · rw [applyMappings, hl, hd, hr] at h
          simp at h
      · rw [applyMappings, hl, hd] at h
        rw [ih _ out h k, writesTo]
        have hf : mappingFires inputMap mp = some d := by
          rw [mappingFires, hl, hd]
        rcases writesTo inputMap k rest with _ | w
        · rw [hf, mapLookup_insert]
          by_cases hk : mp.toField = k <;> simp [hk]
        · rfl
    · rw [applyMappings, hl] at h
      rw [ih _ out h k, writesTo]
      have hf : mappingFires inputMap mp = some (transformValue v mp.transform) := by
        rw [mappingFires, hl]
      rcases writesTo inputMap k rest with _ | w
      · rw [hf, mapLookup_insert]
        by_cases hk : mp.toField = k <;> simp [hk]
      · rfl

theorem copyUnmapped_lookup (mappings : List FieldMapping) :
    ∀ (inputs acc : List (String × Value)) (k : String),
      (inputs.map Prod.fst).Nodup →
      mapLookup (copyUnmapped mappings inputs acc) k =
        if (mapLookup inputs k).isSome = true
            ∧ mappings.any (fun mp => mp.fromField = k) = false then
          mapLookup inputs k
        else mapLookup acc k := by
  intro inputs
  induction inputs with
  | nil =>
    intro acc k _
    simp [copyUnmapped, mapLookup]
  | cons p rest ih =>
    intro acc k hnd
    obtain ⟨k2, v2⟩ := p
    simp only [List.map_cons, List.nodup_cons] at hnd
    obtain ⟨hk2, hrest⟩ := hnd
    by_cases hmap : mappings.any (fun mp => mp.fromField = k2) = true
    · rw [copyUnmapped, if_pos hmap, ih acc k hrest]
      by_cases hk : k2 = k
      · subst hk
        have hnone : mapLookup rest k2 = none := mapLookup_eq_none rest k2 hk2
        rw [hnone]
        simp only [mapLookup, if_pos rfl, hmap]
        simp
      · simp only [mapLookup, if_neg hk]
    · rw [copyUnmapped, if_neg hmap]
      rw [ih (mapInsert acc k2 v2) k hrest]
      by_cases hk : k2 = k
      · subst hk
        have hnone : mapLookup rest k2 = none := mapLookup_eq_none rest k2 hk2
        rw [hnone]
        simp only [Option.isSome_none, Bool.false_eq_true, false_and, if_false,
          mapLookup, if_pos rfl]
        rw [mapLookup_insert, if_pos rfl]
        rw [Bool.not_eq_true] at hmap
        simp [hmap]
      · simp only [mapLookup, if_neg hk]
        rcases hrk : mapLookup rest k with _ | w
        · simp only [Option.isSome_none, Bool.false_eq_true, false_and, if_false]
          rw [mapLookup_insert, if_neg hk]
        · by_cases hc : (mappings.any fun mp => decide (mp.fromField = k)) = false
          · simp [hc]
          · simp only [hc, and_false, if_false]
            rw [mapLookup_insert, if_neg hk]

theorem writesTo_eq_none (inputMap : List (String × Value)) (k : String) :
    ∀ (mappings : List FieldMapping), (∀ q ∈ mappings, q.toField ≠ k) →
      writesTo inputMap k mappings = none := by
  intro mappings
  induction mappings with
  | nil => intro _; rfl
  | cons q rest ih =>
    intro h
    rw [writesTo, ih (fun p hp => h p (List.mem_cons_of_mem _ hp))]
    rw [if_neg (h q (List.mem_cons_self _ _))]

theorem writesTo_of_mem (inputMap : List (String × Value)) :
    ∀ (mappings : List FieldMapping) (mp : FieldMapping), mp ∈ mappings →
      (mappings.map FieldMapping.toField).Nodup →
      writesTo inputMap mp.toField mappings = mappingFires inputMap mp := by
  intro mappings
  induction mappings with
  | nil => intro mp h; cases h
  | cons q rest ih =>
    intro mp hmem hnd
    simp only [List.map_cons, List.nodup_cons] at hnd
    obtain ⟨hq, hrest⟩ := hnd
    rcases List.mem_cons.mp hmem with he | hm
    · subst he
      have hnone : writesTo inputMap mp.toField rest = none := by
        refine writesTo_eq_none inputMap mp.toField rest (fun p hp hpe => ?_)
        exact hq (hpe ▸ List.mem_map_of_mem FieldMapping.toField hp)
      rw [writesTo, hnone, if_pos rfl]
    · have hne : q.toField ≠ mp.toField := by
        intro he
        exact hq (he ▸ List.mem_map_of_mem FieldMapping.toField hm)
      rw [writesTo, ih mp hm hrest]
      rcases mappingFires inputMap mp with _ | w
      · rw [if_neg hne]
      · rfl

theorem migrateMapData_error_iff (mappings : List FieldMapping)
    (inputMap : List (String × Value)) :
    (∃ e, migrateMapData mappings inputMap = .error e) ↔
      ∃ mp ∈ mappings,
        mapLookup inputMap mp.fromField = none
        ∧ mp.defaultValue = none ∧ mp.required = true := by
  unfold migrateMapData
  rcases ha : applyMappings inputMap mappings [] with e | r1
  · simp only []
    constructor
    · intro _
      exact (applyMappings_error_iff inputMap mappings []).mp ⟨e, ha⟩
    · intro _
      exact ⟨e, rfl⟩
  · simp only []
    constructor
    · rintro ⟨e, he⟩
      cases he
    · intro hex
      rcases (applyMappings_error_iff inputMap mappings []).mpr hex with ⟨e, he⟩
      rw [ha] at he
      cases he

theorem migrateMapData_ok_lookup (mappings : List FieldMapping)
    (inputMap out : List (String × Value))
    (h : migrateMapData mappings inputMap = .ok out)
    (hnd : (inputMap.map Prod.fst).Nodup) (k : String) :
    mapLookup out k =
      if (mapLookup inputMap k).isSome = true
          ∧ (mappings.any fun mp => mp.fromField = k) = false then
        mapLookup inputMap k
      else writesTo inputMap k mappings := by
  unfold migrateMapData at h
  rcases ha : applyMappings inputMap mappings [] with e | r1
  · rw [ha] at h
    cases h
  · rw [ha] at h
    cases h
    rw [copyUnmapped_lookup mappings inputMap r1 k hnd]
    have h1 := applyMappings_ok_lookup inputMap mappings [] r1 ha k
    rcases hw : writesTo inputMap k mappings with _ | w
    · rw [hw] at h1
      simp only [mapLookup] at h1
      rw [h1]
    · rw [hw] at h1
      rw [h1]

/-- The spec's worked field-mapping example. -/
def exMappings4 : List FieldMapping :=
  [{ fromField := "name", toField := "display_name", transform := "",
     defaultValue := none, required := true },
   { fromField := "email", toField := "email", transform := "",
     defaultValue := none, required := true },
   { fromField := "id", toField := "user_id", transform := "",
     defaultValue := none, required := true }]

/-- The spec's worked input record. -/
def exInput4 : List (String × Value) :=
  [("id", .vInt 123), ("name", .vStr "John Doe"),
   ("email", .vStr "john@example.com"), ("role", .vStr "admin")]

/-- A mapping set and input where an unmapped input field collides with a
mapping's destination field. -/
def exMappingsCx : List FieldMapping :=
  [{ fromField := "name", toField := "display_name", transform := "",
     defaultValue := none, required := true }]

def exInputCx : List (String × Value) :=
  [("name", .vStr "John"), ("display_name", .vStr "x")]

/-- C4 counterexample: with mapping name→display_name and input holding
both `name:"John"` and an unmapped `display_name:"x"`, the copy-through of
unmapped fields runs after the mapping loop and overwrites the mapped
write, so the destination holds `"x"`, not the transformed source value
`"John"` the claim promises. -/
theorem C4_copy_clobbers_counterexample :
    migrateMapData exMappingsCx exInputCx = .ok [("display_name", Value.vStr "x")]
    ∧ ¬ (∃ out, migrateMapData exMappingsCx exInputCx = .ok out
          ∧ mapLookup out "display_name" = some (Value.vStr "John")) := by
  refine ⟨rfl, ?_⟩
  rintro ⟨out, h1, h2⟩
  rw [show migrateMapData exMappingsCx exInputCx = .ok [("display_name", Value.vStr "x")]
      from rfl] at h1
  cases h1
  exact absurd h2 (by decide)

/-- C4 (amended): for map-shaped input with distinct keys, the field
mapping transform (i) fails exactly when some mapping's source field is
absent with no default while required; and, on success, provided the
destination fields are pairwise distinct and no destination coincides
with an unmapped input field (otherwise the later copy-through overwrites
the mapped write, see the counterexample), (ii) a present source field is
written transformed to its destination, (iii) an absent source with a
default writes the default, (iv) an absent source with no default and not
required leaves its destination unwritten, and (v) every unmapped input
field is copied through unchanged; the spec's worked example evaluates to
exactly the promised record. -/
theorem C4_migrateMapData_spec :
    (∀ (mappings : List FieldMapping) (inputMap : List (String × Value)),
        (∃ e, migrateMapData mappings inputMap = .error e) ↔
          ∃ mp ∈ mappings,
            mapLookup inputMap mp.fromField = none
            ∧ mp.defaultValue = none ∧ mp.required = true)
    ∧ (∀ (mappings : List FieldMapping) (inputMap out : List (String × Value))
          (mp : FieldMapping) (v : Value),
        migrateMapData mappings inputMap = .ok out →
        (inputMap.map Prod.fst).Nodup →
        (mappings.map FieldMapping.toField).Nodup →
        mp ∈ mappings →
        ¬((mapLookup inputMap mp.toField).isSome = true
            ∧ (mappings.any fun q => q.fromField = mp.toField) = false) →
        mapLookup inputMap mp.fromField = some v →
        mapLookup out mp.toField = some (transformValue v mp.transform))
    ∧ (∀ (mappings : List FieldMapping) (inputMap out : List (String × Value))
          (mp : FieldMapping) (d : Value),
        migrateMapData mappings inputMap = .ok out →
        (inputMap.map Prod.fst).Nodup →
        (mappings.map FieldMapping.toField).Nodup →
        mp ∈ mappings →
        ¬((mapLookup inputMap mp.toField).isSome = true
            ∧ (mappings.any fun q => q.fromField = mp.toField) = false) →
        mapLookup inputMap mp.fromField = none →
        mp.defaultValue = some d →
        mapLookup out mp.toField = some d)
    ∧ (∀ (mappings : List FieldMapping) (inputMap out : List (String × Value))
          (mp : FieldMapping),
        migrateMapData mappings inputMap = .ok out →
        (inputMap.map Prod.fst).Nodup →
        (mappings.map FieldMapping.toField).Nodup →
        mp ∈ mappings →
        ¬((mapLookup inputMap mp.toField).isSome = true
            ∧ (mappings.any fun q => q.fromField = mp.toField) = false) →
        mapLookup inputMap mp.fromField = none →
        mp.defaultValue = none →
        mapLookup out mp.toField = none)
    ∧ (∀ (mappings : List FieldMapping) (inputMap out : List (String × Value))
          (k : String) (v : Value),
        migrateMapData mappings inputMap = .ok out →
        (inputMap.map Prod.fst).Nodup →
        mapLookup inputMap k = some v →
        (mappings.any fun mp => mp.fromField = k) = false →
        mapLookup out k = some v)
    ∧ migrateMapData exMappings4 exInput4 =
        .ok [("display_name", Value.vStr "John Doe"),
             ("email", Value.vStr "john@example.com"),
             ("user_id", Value.vInt 123),
             ("role", Value.vStr "admin")] := by
  refine ⟨migrateMapData_error_iff, ?_, ?_, ?_, ?_, rfl⟩
  · intro mappings inputMap out mp v hok hnd1 hnd2 hmem hnc hl
    rw [migrateMapData_ok_lookup mappings inputMap out hok hnd1 mp.toField,
      if_neg hnc, writesTo_of_mem inputMap mappings mp hmem hnd2, mappingFires, hl]
  · intro mappings inputMap out mp d hok hnd1 hnd2 hmem hnc hl hd
    rw [migrateMapData_ok_lookup mappings inputMap out hok hnd1 mp.toField,
      if_neg hnc, writesTo_of_mem inputMap mappings mp hmem hnd2, mappingFires, hl, hd]
  · intro mappings inputMap out mp hok hnd1 hnd2 hmem hnc hl hd
    rw [migrateMapData_ok_lookup mappings inputMap out hok hnd1 mp.toField,
      if_neg hnc, writesTo_of_mem inputMap mappings mp hmem hnd2, mappingFires, hl, hd]
  · intro mappings inputMap out k v hok hnd1 hl hun
    rw [migrateMapData_ok_lookup mappings inputMap out hok hnd1 k]
    rw [if_pos ⟨by rw [hl]; rfl, hun⟩, hl]

/-! ## `metrics.go`: the default in-memory metrics collector -/

/-- The `ComponentMetrics` struct: per-version request counts, last-access
timestamps and error counts. -/
structure ComponentMetrics where
  component : String
  versionMetrics : List (String × Int)
  lastAccessed : List (String × String)
  errorCounts : List (String × Int)
  deriving DecidableEq

/-- The map held by a `DefaultMetricsCollector`. -/
abbrev CollectorState := List (String × ComponentMetrics)

/-- The fresh `ComponentMetrics` both record methods create on demand. -/
def emptyMetrics (component : String) : ComponentMetrics :=
  { component := component, versionMetrics := [], lastAccessed := [], errorCounts := [] }

/-- Go `m[k]++`: a missing key counts as 0. -/
def incEntry (m : List (String × Int)) (k : String) : List (String × Int) :=
  match mapLookup m k with
  | some n => mapInsert m k (n + 1)
  | none => mapInsert m k 1

/-- `RecordRequest`: bump the request counter for the version's rendered
string and stamp its last access (`now` stands for the wall-clock string). -/
def recordRequest (st : CollectorState) (component : String) (version : Version)
    (now : String) : CollectorState :=
  let cm := (mapLookup st component).getD (emptyMetrics component)
  let versionStr := version.str
  mapInsert st component
    { cm with versionMetrics := incEntry cm.versionMetrics versionStr,
              lastAccessed := mapInsert cm.lastAccessed versionStr now }

/-- `RecordError`: bump only the error counter (the error value itself is
dropped, as in the source). -/
def recordError (st : CollectorState) (component : String) (version : Version) :
    CollectorState :=
  let cm := (mapLookup st component).getD (emptyMetrics component)
  let versionStr := version.str
  mapInsert st component
    { cm with errorCounts := incEntry cm.errorCounts versionStr }

/-- `GetMetrics` (the defensive copying of the source is a no-op in a pure
embedding). -/
def getMetrics (st : CollectorState) (component : String) : Option ComponentMetrics :=
  mapLookup st component

/-- The slice of `VersionUsageStats` the claim is about; the
iteration-order-dependent fields (most/least used version, breakdown,
last activity) are outside the claim and not modelled. The error rate is
embedded as an exact rational where the source divides two float64s. -/
structure VersionUsageStats where
  component : String
  totalRequests : Int
  totalErrors : Int
  errorRate : ℚ
  deriving DecidableEq

/-- Sum of a Go counter map's values. -/
def sumCounts (m : List (String × Int)) : Int :=
  (m.map Prod.snd).sum

/-- `GetUsageStats`: nil when the component has no metrics entry; else
total requests and errors summed over the per-version counters and the
error rate `errors/requests` (0 when there are no requests). -/
def getUsageStats (st : CollectorState) (component : String) : Option VersionUsageStats :=
  match getMetrics st component with
  | none => none
  | some metrics =>
    let totalRequests := sumCounts metrics.versionMetrics
    let totalErrors := sumCounts metrics.errorCounts
    let errorRate : ℚ :=
      if totalRequests > 0 then (totalErrors : ℚ) / (totalRequests : ℚ) else 0
    some { component := component, totalRequests := totalRequests,
           totalErrors := totalErrors, errorRate := errorRate }

/-- One call against the collector. -/
inductive MetricsOp where
  | req (component : String) (version : Version) (now : String)
  | err (component : String) (version : Version)
  deriving DecidableEq

/-- Apply one call. -/
def applyOp (st : CollectorState) : MetricsOp → CollectorState
  | .req c v now => recordRequest st c v now
  | .err c v => recordError st c v

/-- Apply a sequence of calls in order. -/
def applyOps (st : CollectorState) : List MetricsOp → CollectorState
  | [] => st
  | op :: ops => applyOps (applyOp st op) ops

/-- Whether a call is a `RecordRequest(c, v)`. -/
def isReqOp (c : String) (v : Version) : MetricsOp → Bool
  | .req c2 v2 _ => decide (c2 = c ∧ v2 = v)
  | .err _ _ => false

/-- Whether a call is a `RecordError(c, v, _)`. -/
def isErrOp (c : String) (v : Version) : MetricsOp → Bool
  | .req _ _ _ => false
  | .err c2 v2 => decide (c2 = c ∧ v2 = v)

/-- The number of `RecordRequest(c, v)` calls in a sequence. -/
def countReqs (c : String) (v : Version) (ops : List MetricsOp) : Nat :=
  ops.countP (isReqOp c v)

/-- The number of `RecordError(c, v, _)` calls in a sequence. -/
def countErrs (c : String) (v : Version) (ops : List MetricsOp) : Nat :=
  ops.countP (isErrOp c v)

/-- The collector state after N requests and E errors for one (component,
version) pair, with `la` the accumulated last-access map: no entry at all
before the first call, else one entry whose counter maps hold the single
version key exactly when its count is positive. -/
def canonState (c : String) (v : Version) (N E : Nat) (la : List (String × String)) :
    CollectorState :=
  if N = 0 ∧ E = 0 then []
  else
    [(c, { component := c,
           versionMetrics := if N = 0 then [] else [(v.str, (N : Int))],
           lastAccessed := la,
           errorCounts := if E = 0 then [] else [(v.str, (E : Int))] })]

theorem recordRequest_canon (c : String) (v : Version) (N E : Nat)
    (la : List (String × String)) (now : String)
    (hla : N = 0 ∧ E = 0 → la = []) :
    recordRequest (canonState c v N E la) c v now
      = canonState c v (N + 1) E (mapInsert la v.str now) := by
  by_cases h0 : N = 0 ∧ E = 0
  · obtain ⟨hN, hE⟩ := h0
    subst hN
    subst hE
    rw [hla ⟨rfl, rfl⟩]
    simp [canonState, recordRequest, mapLookup, mapInsert, incEntry, emptyMetrics]
  · rw [canonState, if_neg h0]
    have h1 : ¬(N + 1 = 0 ∧ E = 0) := by omega
    rw [canonState, if_neg h1]
    by_cases hN : N = 0
    · subst hN
      simp only [if_pos rfl]
      have hE : ¬E = 0 := by
        intro hE
        exact h0 ⟨rfl, hE⟩
      simp [recordRequest, mapLookup, mapInsert, incEntry]
    · simp only [if_neg hN]
      have hN1 : ¬(N + 1 = 0) := by omega
      simp only [if_neg hN1]
      simp [recordRequest, mapLookup, mapInsert, incEntry]

theorem recordError_canon (c : String) (v : Version) (N E : Nat)
    (la : List (String × String))
    (hla : N = 0 ∧ E = 0 → la = []) :
    recordError (canonState c v N E la) c v = canonState c v N (E + 1) la := by
  by_cases h0 : N = 0 ∧ E = 0
  · obtain ⟨hN, hE⟩ := h0
    subst hN
    subst hE
    rw [hla ⟨rfl, rfl⟩]
    simp [canonState, recordError, mapLookup, mapInsert, incEntry, emptyMetrics]
  · rw [canonState, if_neg h0]
    have h1 : ¬(N = 0 ∧ E + 1 = 0) := by omega
    rw [canonState, if_neg h1]
    by_cases hE : E = 0
    · subst hE
      simp only [if_pos rfl]
      simp [recordError, mapLookup, mapInsert, incEntry]
    · simp only [if_neg hE]
      have hE1 : ¬(E + 1 = 0) := by omega
      simp only [if_neg hE1]
      simp [recordError, mapLookup, mapInsert, incEntry]

theorem applyOps_canon (c : String) (v : Version) :
    ∀ (ops : List MetricsOp),
      (∀ op ∈ ops, isReqOp c v op = true ∨ isErrOp c v op = true) →
      ∀ (N E : Nat) (la : List (String × String)), (N = 0 ∧ E = 0 → la = []) →
      ∃ la2, applyOps (canonState c v N E la) ops
          = canonState c v (N + countReqs c v ops) (E + countErrs c v ops) la2 := by
  intro ops
  induction ops with
  | nil =>
    intro _ N E la hla
    exact ⟨la, by simp [applyOps, countReqs, countErrs]⟩
  | cons op rest ih =>
    intro hops N E la hla
    have hrest : ∀ q ∈ rest, isReqOp c v q = true ∨ isErrOp c v q = true :=
      fun q hq => hops q (List.mem_cons_of_mem _ hq)
    rcases hops op (List.mem_cons_self _ _) with hr | he
    · cases op with
      | err c2 v2 => simp [isReqOp] at hr
      | req c2 v2 now =>
        simp only [isReqOp, decide_eq_true_eq] at hr
        obtain ⟨hc2, hv2⟩ := hr
        subst c2
        subst v2
        rw [applyOps, applyOp, recordRequest_canon c v N E la now hla]
        obtain ⟨la2, h2⟩ :=
          ih hrest (N + 1) E (mapInsert la v.str now) (by omega)
        refine ⟨la2, ?_⟩
        rw [h2]
        have hq : countReqs c v (.req c v now :: rest) = countReqs c v rest + 1 := by
          simp [countReqs, List.countP_cons, isReqOp]
        have herr : countErrs c v (.req c v now :: rest) = countErrs c v rest := by
          simp [countErrs, List.countP_cons, isErrOp]
        rw [hq, herr]
        congr 1
        omega
    · cases op with
      | req c2 v2 now => simp [isErrOp] at he
      | err c2 v2 =>
        simp only [isErrOp, decide_eq_true_eq] at he
        obtain ⟨hc2, hv2⟩ := he
        subst c2
        subst v2
        rw [applyOps, applyOp, recordError_canon c v N E la hla]
        obtain ⟨la2, h2⟩ := ih hrest N (E + 1) la (by omega)
        refine ⟨la2, ?_⟩
        rw [h2]
        have hq : countReqs c v (.err c v :: rest) = countReqs c v rest := by
          simp [countReqs, List.countP_cons, isReqOp]
        have herr : countErrs c v (.err c v :: rest) = countErrs c v rest + 1 := by
          simp [countErrs, List.countP_cons, isErrOp]
        rw [hq, herr]
        congr 1
        omega

/-- C8 (amended): after any non-empty sequence of N `RecordRequest(c,v)`
and E `RecordError(c,v,_)` calls on a fresh collector, in any order,
`GetUsageStats(c)` reports TotalRequests = N, TotalErrors = E and
ErrorRate = E/N (0 when N = 0); with no calls at all it returns nil
instead (see the counterexample). -/
theorem C8_usage_stats (c : String) (v : Version) (ops : List MetricsOp)
    (hops : ∀ op ∈ ops, isReqOp c v op = true ∨ isErrOp c v op = true)
    (hne : ops ≠ []) :
    getUsageStats (applyOps [] ops) c =
      some { component := c,
             totalRequests := (countReqs c v ops : Int),
             totalErrors := (countErrs c v ops : Int),
             errorRate :=
               if 0 < countReqs c v ops then
                 ((countErrs c v ops : ℚ) / (countReqs c v ops : ℚ))
               else 0 } := by
  obtain ⟨la2, h⟩ := applyOps_canon c v ops hops 0 0 [] (fun _ => rfl)
  have h0 : canonState c v 0 0 [] = [] := by simp [canonState]
  rw [h0] at h
  rw [h]
  have hpos : 0 < countReqs c v ops + countErrs c v ops := by
    cases ops with
    | nil => exact absurd rfl hne
    | cons op rest =>
      rcases hops op (List.mem_cons_self _ _) with hr | he
      · have : 0 < countReqs c v (op :: rest) := by
          simp [countReqs, List.countP_cons, hr]
        omega
      · have : 0 < countErrs c v (op :: rest) := by
          simp [countErrs, List.countP_cons, he]
        omega
  have hns : ¬(0 + countReqs c v ops = 0 ∧ 0 + countErrs c v ops = 0) := by omega
  rw [canonState, if_neg hns]
  rw [getUsageStats, getMetrics, mapLookup]
  simp only [if_true]
  have hreq : sumCounts (if 0 + countReqs c v ops = 0 then []
      else [(v.str, ((0 + countReqs c v ops : Nat) : Int))]) = (countReqs c v ops : Int) := by
    by_cases hN : countReqs c v ops = 0
    · simp [hN, sumCounts]
    · rw [if_neg (by omega)]
      simp [sumCounts]
  have herr : sumCounts (if 0 + countErrs c v ops = 0 then []
      else [(v.str, ((0 + countErrs c v ops : Nat) : Int))]) = (countErrs c v ops : Int) := by
    by_cases hE : countErrs c v ops = 0
    · simp [hE, sumCounts]
    · rw [if_neg (by omega)]
      simp [sumCounts]
  simp only [hreq, herr]
  congr 1
  rw [VersionUsageStats.mk.injEq]
  refine ⟨rfl, rfl, rfl, ?_⟩
  by_cases hN : 0 < countReqs c v ops
  · rw [if_pos (by exact_mod_cast hN), if_pos hN]
    push_cast
    ring
  · rw [if_neg (by exact_mod_cast hN), if_neg hN]

/-- C8 counterexample: on a fresh collector with no calls at all (N = 0,
E = 0), `GetUsageStats` returns nil rather than a stats record with zero
totals as the claim asserts. -/
theorem C8_fresh_none_counterexample :
    getUsageStats (applyOps [] ([] : List MetricsOp)) "users" = none
    ∧ (∀ s : VersionUsageStats,
        getUsageStats (applyOps [] ([] : List MetricsOp)) "users" ≠ some s) :=
  ⟨rfl, fun _ h => Option.noConfusion h⟩

/-- Two requests and one error for `users` at v1.0.0. -/
def exOps8 : List MetricsOp :=
  [.req "users" exV1 "", .req "users" exV1 "", .err "users" exV1]

/-- C8 witness: after two requests and one error the stats report 2, 1
and rate 1/2. -/
theorem C8_witness :
    getUsageStats (applyOps [] exOps8) "users"
      = some { component := "users",
               totalRequests := (countReqs "users" exV1 exOps8 : Int),
               totalErrors := (countErrs "users" exV1 exOps8 : Int),
               errorRate :=
                 if 0 < countReqs "users" exV1 exOps8 then
                   ((countErrs "users" exV1 exOps8 : ℚ) / (countReqs "users" exV1 exOps8 : ℚ))
                 else 0 }
    ∧ countReqs "users" exV1 exOps8 = 2 ∧ countErrs "users" exV1 exOps8 = 1 :=
  ⟨C8_usage_stats "users" exV1 exOps8 (by decide) (by decide), by decide, by decide⟩

/-! ## `types.go` continued: version ranges and constraints -/

/-- The `VersionRange` struct: a min/max range or an exact list. -/
structure VersionRange where
  minV : Version
  maxV : Version
  exact : List Version
  deriving DecidableEq

/-- `VersionRange.Contains`: when exact versions are given, membership on
(major, minor, patch); else the min/max bounds, each ignored when zero. -/
def VersionRange.containsV (vr : VersionRange) (version : Version) : Bool :=
  if 0 < vr.exact.length then
    vr.exact.any (fun v =>
      decide (v.major = version.major ∧ v.minor = version.minor ∧ v.patch = version.patch))
  else if (¬ vr.minV.isZero) ∧ version.compare vr.minV < 0 then false
  else if (¬ vr.maxV.isZero) ∧ version.compare vr.maxV > 0 then false
  else true

/-- `NewExactVersions`. -/
def NewExactVersions (versions : List Version) : VersionRange :=
  { minV := zeroVersion, maxV := zeroVersion, exact := versions }

/-- The `VersionConstraint` struct of `interfaces.go`. -/
structure VersionConstraint where
  component : String
  requires : VersionRange
  conflicts : List Version
  deriving DecidableEq

/-! ## `errors.go`: the error taxonomy the manager claims touch -/

/-- The `VersionError` struct. -/
structure VersionError where
  component : String
  requestedVersion : Version
  supportedVersions : List Version
  message : String
  code : String
  deriving DecidableEq

/-- `NewVersionError`: code `VERSION_NOT_SUPPORTED`. -/
def NewVersionError (component : String) (requested : Version) (supported : List Version)
    (message : String) : VersionError :=
  { component := component, requestedVersion := requested,
    supportedVersions := supported, message := message, code := "VERSION_NOT_SUPPORTED" }

/-- The `ComponentNotFoundError` struct. -/
structure ComponentNotFoundError where
  component : String
  message : String
  deriving DecidableEq

/-- A Go `error` value as the manager produces them: either an untyped
`fmt.Errorf` error carrying only its message, or one of the typed errors
of `errors.go`. -/
inductive GoError where
  | generic (msg : String)
  | versionErr (e : VersionError)
  | notFoundErr (e : ComponentNotFoundError)
  deriving DecidableEq

/-! ## `interfaces.go`/`manager.go`: components and the manager -/

/-- The `DeprecationInfo` struct. -/
structure DeprecationInfo where
  version : Version
  deprecatedAt : String
  sunsetAt : String
  reason : String
  replacement : Version
  deriving DecidableEq

/-- The optional `DeprecatableComponent` capability the manager probes
for with a type assertion. -/
structure Deprecable where
  isVersionDeprecated : Version → Bool
  getDeprecationInfo : Version → Option DeprecationInfo

/-- A `VersionedComponent` as the manager consumes it: the interface's
methods become function and data fields (a Go implementation may compute
`IsVersionSupported` arbitrarily, so it is a separate function field);
`deprecable` is `some` exactly when the dynamic deprecation capability
test succeeds. -/
structure VersionedComponent where
  name : String
  ctype : String
  supportedVersions : List Version
  defaultVersion : Version
  isVersionSupported : Version → Bool
  deprecable : Option Deprecable

/-- The `VersionedComponentMeta` struct (timestamps are opaque in the
embedding: `Register` stamps them with an empty string). -/
structure VersionedComponentMeta where
  name : String
  mtype : String
  supportedVersions : List Version
  defaultVersion : Version
  deprecatedVersions : List DeprecationInfo
  constraints : List VersionConstraint
  createdAt : String
  updatedAt : String

/-- The deprecated-version entries `Register` collects from a deprecatable
component: the supported versions it reports deprecated and has info for. -/
def deprecatedEntries (component : VersionedComponent) : List DeprecationInfo :=
  match component.deprecable with
  | none => []
  | some dep =>
    (component.supportedVersions.filter (fun v => dep.isVersionDeprecated v)).filterMap
      dep.getDeprecationInfo

/-- The `Manager` struct. The optional collector is the repository's own
`DefaultMetricsCollector` state; the owned detector plays no part in the
claims and is omitted. -/
structure Manager where
  components : List (String × VersionedComponent)
  componentMeta : List (String × VersionedComponentMeta)
  constraints : List (String × List VersionConstraint)
  metricsCollector : Option CollectorState

/-- `NewManager()` with no options (no collector configured). -/
def NewManager : Manager :=
  { components := [], componentMeta := [], constraints := [], metricsCollector := none }

/-- `Register`: reject an empty name or a name conflict (the Go nil check
has no Lean counterpart); on success store the component and synthesize
its meta record. -/
def Manager.register (m : Manager) (component : VersionedComponent) :
    Except GoError Manager :=
  if component.name = "" then .error (.generic "component name cannot be empty")
  else if (mapLookup m.components component.name).isSome then
    .error (.generic ("component with name '" ++ component.name ++ "' already registered"))
  else
    let meta : VersionedComponentMeta :=
      { name := component.name, mtype := component.ctype,
        supportedVersions := component.supportedVersions,
        defaultVersion := component.defaultVersion,
        deprecatedVersions := deprecatedEntries component,
        constraints := [], createdAt := "", updatedAt := "" }
    .ok { m with
          components := mapInsert m.components component.name component,
          componentMeta := mapInsert m.componentMeta component.name meta }

/-- `RegisterWithConstraints`: `Register`, then store the constraints and
write them into the meta record. -/
def Manager.registerWithConstraints (m : Manager) (component : VersionedComponent)
    (constraints : List VersionConstraint) : Except GoError Manager :=
  match m.register component with
  | .error e => .error e
  | .ok m1 =>
    .ok { m1 with
          constraints := mapInsert m1.constraints component.name constraints,
          componentMeta := mapUpdate m1.componentMeta component.name
            (fun meta => { meta with constraints := constraints }) }

/-- `Unregister`: fail on an unknown name, else delete the component, its
meta and its constraints. -/
def Manager.unregister (m : Manager) (name : String) : Except GoError Manager :=
  if (mapLookup m.components name).isSome then
    .ok { m with
          components := mapErase m.components name,
          componentMeta := mapErase m.componentMeta name,
          constraints := mapErase m.constraints name }
  else .error (.generic ("component '" ++ name ++ "' not found"))

/-- `Get`: an unknown name fails with the UNTYPED `fmt.Errorf` error of
the source (not a `ComponentNotFoundError`); an unsupported version fails
with a `VersionError` carrying the component's full supported list; on
success the component is returned and, when a collector is configured, a
usage event is recorded (the wall-clock stamp is opaque). -/
def Manager.get (m : Manager) (name : String) (version : Version) :
    Except GoError VersionedComponent × Manager :=
  match mapLookup m.components name with
  | none => (.error (.generic ("component '" ++ name ++ "' not found")), m)
  | some component =>
    if ¬ component.isVersionSupported version then
      let supported := component.supportedVersions
      let supportedStrs := supported.map Version.str
      (.error (.versionErr (NewVersionError name version supported
          ("version not supported. Supported versions: [" ++ joinSpace supportedStrs ++ "]"))),
       m)
    else
      match m.metricsCollector with
      | some st =>
        (.ok component, { m with metricsCollector := some (recordRequest st name version "") })
      | none => (.ok component, m)

/-- One constraint check of `CheckCompatibility`: satisfied when its
target component is absent from the input map, else the target's version
must lie in the required range and differ (on major/minor/patch) from
every conflicting version. -/
def constraintOk (componentVersions : List (String × Version)) (c : VersionConstraint) :
    Bool :=
  match mapLookup componentVersions c.component with
  | none => true
  | some requiredVersion =>
    c.requires.containsV requiredVersion
    && !(c.conflicts.any (fun cv =>
          decide (cv.major = requiredVersion.major ∧ cv.minor = requiredVersion.minor
            ∧ cv.patch = requiredVersion.patch)))

/-- `CheckCompatibility`: iterate the INPUT map, look up each named
component's stored constraints (skipping components without any), and
check every constraint; the Boolean is true exactly when the source
returns nil (the message of the first violation is not modelled). -/
def Manager.checkCompatibility (m : Manager) (componentVersions : List (String × Version)) :
    Bool :=
  componentVersions.all (fun p =>
    ((mapLookup m.constraints p.1).getD []).all (fun c => constraintOk componentVersions c))

/-- The claim's reading of the compatibility check: a violation exists
when ANY component with stored constraints (in the input map or not) has
a constraint whose target is present and fails the range or conflict
test. -/
def specCompatViolation (constraints : List (String × List VersionConstraint))
    (componentVersions : List (String × Version)) : Bool :=
  constraints.any (fun e => e.2.any (fun c => !(constraintOk componentVersions c)))

/-! ## C1: the errors `Get` actually returns -/

def exV99 : Version := NewVersion 99 0 0

/-- A component named `users` supporting exactly v1.0.0 and v2.0.0. -/
def usersComponent : VersionedComponent :=
  { name := "users", ctype := "service",
    supportedVersions := [exV1, exV2],
    defaultVersion := exV1,
    isVersionSupported := fun v =>
      [exV1, exV2].any (fun s =>
        decide (s.major = v.major ∧ s.minor = v.minor ∧ s.patch = v.patch)),
    deprecable := none }

/-- A manager holding only `users`. -/
def usersManager : Manager :=
  { components := [("users", usersComponent)], componentMeta := [],
    constraints := [], metricsCollector := none }

/-- C1: evaluated at the claim's failing input, `Get("missing", v1.0.0)`
on a fresh manager returns the UNTYPED `fmt.Errorf` error — for no
`ComponentNotFoundError` value is it that typed error, contradicting the
claim (and the package's own 404 mapping, which fires only on the typed
error); the `VersionError` half of the claim does hold: `Get("users",
v99.0.0)` fails with a `VersionError` listing `[v1.0.0, v2.0.0]`. -/
theorem C1_get_errors :
    (NewManager.get "missing" exV1).1
        = .error (.generic "component 'missing' not found")
    ∧ (∀ e : ComponentNotFoundError,
        (NewManager.get "missing" exV1).1 ≠ .error (.notFoundErr e))
    ∧ (usersManager.get "users" exV99).1
        = .error (.versionErr (NewVersionError "users" exV99 [exV1, exV2]
            "version not supported. Supported versions: [v1.0.0 v2.0.0]")) := by
  refine ⟨rfl, ?_, rfl⟩
  intro e h
  exact GoError.noConfusion (Except.error.inj h)

/-! ## C5: compatibility checking -/

/-- C5 (amended): `CheckCompatibility` succeeds exactly when, for every
component PRESENT IN THE INPUT MAP that has stored constraints, every one
of those constraints whose target component is present in the map finds
the target's version inside the required range and distinct (on
major/minor/patch) from every conflicting version. -/
theorem C5_checkCompatibility_spec (m : Manager)
    (componentVersions : List (String × Version)) :
    m.checkCompatibility componentVersions = true ↔
      ∀ p ∈ componentVersions,
        ∀ c ∈ (mapLookup m.constraints p.1).getD [],
          ∀ rv, mapLookup componentVersions c.component = some rv →
            c.requires.containsV rv = true
            ∧ ∀ cv ∈ c.conflicts,
                ¬(cv.major = rv.major ∧ cv.minor = rv.minor ∧ cv.patch = rv.patch) := by
  unfold Manager.checkCompatibility
  rw [List.all_eq_true]
  constructor
  · intro h p hp c hc rv hrv
    have h2 := h p hp
    rw [List.all_eq_true] at h2
    have h3 := h2 c hc
    simp only [constraintOk, hrv, Bool.and_eq_true, Bool.not_eq_true',
      List.any_eq_false, decide_eq_false_iff_not, decide_eq_true_eq] at h3
    exact h3
  · intro h p hp
    rw [List.all_eq_true]
    intro c hc
    rcases hrv : mapLookup componentVersions c.component with _ | rv
    · simp only [constraintOk, hrv]
    · have h3 := h p hp c hc rv hrv
      simp only [constraintOk, hrv, Bool.and_eq_true, Bool.not_eq_true',
        List.any_eq_false, decide_eq_false_iff_not, decide_eq_true_eq]
      exact h3

/-- A conflict-free constraint on B requiring exactly v2.0.0. -/
def cxConstraint5 : VersionConstraint :=
  { component := "B", requires := NewExactVersions [exV2], conflicts := [] }

/-- A registered component with trivial version support, for the
compatibility counterexample. -/
def dummyComponent (name : String) : VersionedComponent :=
  { name := name, ctype := "service", supportedVersions := [exV1],
    defaultVersion := exV1, isVersionSupported := fun _ => true, deprecable := none }

/-- A manager where registered component A constrains B to {v2.0.0}. -/
def cxManager5 : Manager :=
  { components := [("A", dummyComponent "A")], componentMeta := [],
    constraints := [("A", [cxConstraint5])], metricsCollector := none }

/-- C5 counterexample: component A has stored constraints whose target B
is present in the input map at the out-of-range version v1.0.0, so the
claim demands failure; but A itself is not in the input map and the code
iterates only the input map, so `CheckCompatibility` succeeds. -/
theorem C5_skips_absent_counterexample :
    cxManager5.checkCompatibility [("B", exV1)] = true
    ∧ specCompatViolation cxManager5.constraints [("B", exV1)] = true :=
  ⟨rfl, rfl⟩

/-! ## C9: registry alignment across manager operations -/

/-- The alignment invariant: meta exists exactly for registered names, and
constraints only for registered names. -/
def managerAligned (m : Manager) : Prop :=
  (∀ name, (mapLookup m.components name).isSome = true
      ↔ (mapLookup m.componentMeta name).isSome = true)
  ∧ (∀ name, (mapLookup m.constraints name).isSome = true
      → (mapLookup m.components name).isSome = true)

/-- One sequential operation against the manager registry. -/
inductive ManagerOp where
  | reg (c : VersionedComponent)
  | regC (c : VersionedComponent) (cs : List VersionConstraint)
  | unreg (name : String)

/-- Apply one operation; a failed operation leaves the state unchanged. -/
def applyMgrOp (m : Manager) : ManagerOp → Manager
  | .reg c =>
    match m.register c with
    | .ok m2 => m2
    | .error _ => m
  | .regC c cs =>
    match m.registerWithConstraints c cs with
    | .ok m2 => m2
    | .error _ => m
  | .unreg n =>
    match m.unregister n with
    | .ok m2 => m2
    | .error _ => m

/-- Apply a sequence of operations in order. -/
def applyMgrOps (m : Manager) : List ManagerOp → Manager
  | [] => m
  | op :: ops => applyMgrOps (applyMgrOp m op) ops

theorem mapLookup_erase {α : Type} (m : List (String × α)) (k k2 : String) :
    mapLookup (mapErase m k) k2 = if k = k2 then none else mapLookup m k2 := by
  induction m with
  | nil => by_cases h : k = k2 <;> simp [mapErase, mapLookup, h]
  | cons p rest ih =>
    obtain ⟨kp, vp⟩ := p
    rw [mapErase]
    by_cases hk : kp = k
    · rw [if_pos hk, ih]
      by_cases h2 : k = k2
      · simp [h2]
      · have hkp2 : ¬ kp = k2 := by rw [hk]; exact h2
        simp [h2, mapLookup, hkp2]
    · rw [if_neg hk, mapLookup]
      by_cases h2 : kp = k2
      · rw [if_pos h2]
        have hne : ¬ k = k2 := fun hh => hk (h2.trans hh.symm)
        rw [if_neg hne, mapLookup, if_pos h2]
      · rw [if_neg h2, ih]
        by_cases h3 : k = k2
        · simp [h3]
        · simp [h3, mapLookup, h2]

theorem mapLookup_update_isSome {α : Type} (m : List (String × α)) (k k2 : String)
    (f : α → α) :
    (mapLookup (mapUpdate m k f) k2).isSome = (mapLookup m k2).isSome := by
  induction m with
  | nil => rfl
  | cons p rest ih =>
    obtain ⟨kp, vp⟩ := p
    rw [mapUpdate]
    by_cases hkp : kp = k
    · rw [if_pos hkp]
      by_cases h2 : kp = k2 <;> simp [mapLookup, h2, ih]
    · rw [if_neg hkp]
      by_cases h2 : kp = k2 <;> simp [mapLookup, h2, ih]

theorem register_ok_shape (m : Manager) (c : VersionedComponent) (m2 : Manager)
    (h : m.register c = .ok m2) :
    ∃ meta, m2 = { m with
      components := mapInsert m.components c.name c,
      componentMeta := mapInsert m.componentMeta c.name meta } := by
  unfold Manager.register at h
  by_cases h1 : c.name = ""
  · rw [if_pos h1] at h
    cases h
  · rw [if_neg h1] at h
    by_cases h2 : (mapLookup m.components c.name).isSome = true
    · rw [if_pos h2] at h
      cases h
    · rw [if_neg h2] at h
      cases h
      exact ⟨_, rfl⟩

theorem unregister_ok_shape (m : Manager) (n : String) (m2 : Manager)
    (h : m.unregister n = .ok m2) :
    m2 = { m with
      components := mapErase m.components n,
      componentMeta := mapErase m.componentMeta n,
      constraints := mapErase m.constraints n } := by
  unfold Manager.unregister at h
  by_cases h1 : (mapLookup m.components n).isSome = true
  · rw [if_pos h1] at h
    cases h
    rfl
  · rw [if_neg h1] at h
    cases h

theorem registerWC_ok_shape (m : Manager) (c : VersionedComponent)
    (cs : List VersionConstraint) (m2 : Manager)
    (h : m.registerWithConstraints c cs = .ok m2) :
    ∃ m1, m.register c = .ok m1
      ∧ m2 = { m1 with
          constraints := mapInsert m1.constraints c.name cs,
          componentMeta := mapUpdate m1.componentMeta c.name
            (fun meta => { meta with constraints := cs }) } := by
  unfold Manager.registerWithConstraints at h
  rcases hr : m.register c with e | m1
  · rw [hr] at h
    cases h
  · rw [hr] at h
    cases h
    exact ⟨m1, rfl, rfl⟩

theorem register_ok_aligned (m : Manager) (c : VersionedComponent) (m2 : Manager)
    (hr : m.register c = .ok m2) (h : managerAligned m) :
    managerAligned m2 ∧ (mapLookup m2.components c.name).isSome = true := by
  obtain ⟨hcm, hcs⟩ := h
  obtain ⟨meta, hm2⟩ := register_ok_shape m c m2 hr
  subst hm2
  refine ⟨⟨?_, ?_⟩, ?_⟩
  · intro name
    rw [mapLookup_insert, mapLookup_insert]
    by_cases hn : c.name = name
    · simp [hn]
    · simp only [if_neg hn]
      exact hcm name
  · intro name hname
    rw [mapLookup_insert]
    by_cases hn : c.name = name
    · simp [hn]
    · simp only [if_neg hn]
      exact hcs name hname
  · rw [mapLookup_insert, if_pos rfl]
    rfl

theorem applyMgrOp_aligned (m : Manager) (op : ManagerOp) (h : managerAligned m) :
    managerAligned (applyMgrOp m op) := by
  cases op with
  | reg c =>
    rw [applyMgrOp]
    rcases hr : m.register c with e | m2
    · exact h
    · exact (register_ok_aligned m c m2 hr h).1
  | regC c cs =>
    rw [applyMgrOp]
    rcases hr : m.registerWithConstraints c cs with e | m2
    · exact h
    · obtain ⟨m1, hr1, hm2⟩ := registerWC_ok_shape m c cs m2 hr
      obtain ⟨⟨hcm1, hcs1⟩, hhas⟩ := register_ok_aligned m c m1 hr1 h
      subst hm2
      refine ⟨?_, ?_⟩
      · intro name
        rw [mapLookup_update_isSome]
        exact hcm1 name
      · intro name hname
        rw [mapLookup_insert] at hname
        by_cases hn : c.name = name
        · subst hn
          exact hhas
        · rw [if_neg hn] at hname
          exact hcs1 name hname
  | unreg n =>
    rw [applyMgrOp]
    rcases hr : m.unregister n with e | m2
    · exact h
    · obtain ⟨hcm, hcs⟩ := h
      rw [unregister_ok_shape m n m2 hr]
      refine ⟨?_, ?_⟩
      · intro name
        rw [mapLookup_erase, mapLookup_erase]
        by_cases hn : n = name
        · simp [hn]
        · simp only [if_neg hn]
          exact hcm name
      · intro name hname
        rw [mapLookup_erase] at hname ⊢
        by_cases hn : n = name
        · rw [if_pos hn] at hname
          exact absurd hname (by simp)
        · rw [if_neg hn] at hname ⊢
          exact hcs name hname

theorem applyMgrOps_aligned :
    ∀ (ops : List ManagerOp) (m : Manager), managerAligned m →
      managerAligned (applyMgrOps m ops) := by
  intro ops
  induction ops with
  | nil => intro m h; exact h
  | cons op rest ih =>
    intro m h
    exact ih (applyMgrOp m op) (applyMgrOp_aligned m op h)

theorem NewManager_aligned : managerAligned NewManager := by
  constructor
  · intro name
    simp [NewManager, mapLookup]
  · intro name h
    simp [NewManager, mapLookup] at h

/-- C9: after any sequence of sequential Register, RegisterWithConstraints
and Unregister operations from a fresh manager, the registry's maps stay
aligned (meta exists exactly for registered names, constraints only for
registered names); moreover any successful `Register` installs the
component and its meta together, and any successful `Unregister` removes
component, meta and constraints together. -/
theorem C9_manager_registry_aligned (ops : List ManagerOp) :
    managerAligned (applyMgrOps NewManager ops)
    ∧ (∀ (m : Manager) (c : VersionedComponent) (m2 : Manager),
        m.register c = .ok m2 →
          (mapLookup m2.components c.name).isSome = true
          ∧ (mapLookup m2.componentMeta c.name).isSome = true)
    ∧ (∀ (m : Manager) (n : String) (m2 : Manager),
        m.unregister n = .ok m2 →
          mapLookup m2.components n = none ∧ mapLookup m2.componentMeta n = none
          ∧ mapLookup m2.constraints n = none) := by
  refine ⟨applyMgrOps_aligned ops NewManager NewManager_aligned, ?_, ?_⟩
  · intro m c m2 hr
    obtain ⟨meta, hm2⟩ := register_ok_shape m c m2 hr
    subst hm2
    constructor
    · rw [mapLookup_insert, if_pos rfl]
      rfl
    · rw [mapLookup_insert, if_pos rfl]
      rfl
  · intro m n m2 hr
    rw [unregister_ok_shape m n m2 hr]
    refine ⟨?_, ?_, ?_⟩ <;> rw [mapLookup_erase, if_pos rfl]

end Gochoreo
